import Mathlib

/-
  Verification development for the sufast routing core.

  The definitions below are a shallow embedding of the Rust sources:
    * src/rust-core/src/routing.rs   (RoutePattern::compile, extract_path_params,
                                      validate_param_type)
    * src/rust-core/src/lib.rs       (CachedResponse::is_expired and the cache tier
                                      of its ultra_fast_handler)
    * src/rust-core/src/lib_ultimate.rs (the three-tier ultra_fast_handler,
                                      add_dynamic_route, compile_ultra_fast_pattern,
                                      call_ultra_fast_python_handler)

  Machine integers are modelled as Nat with explicit bounds / `% 2 ^ w` where the
  Rust code can overflow or truncate.  Strings are modelled through their character
  lists.  Third-party library behaviour that the sources rely on (the regex crate's
  matching and capture-group-name validation, serde_json value accessors, Rust's
  UTF-8 lossy decoding and integer/float `parse`) is modelled from the documented
  behaviour of those libraries; each such definition carries a comment saying so.
-/

set_option maxHeartbeats 1000000

namespace Sufast

/-- Character list; the embedding of a Rust `&str` / `String`. -/
abbrev CL := List Char

/-- Split a list at the first occurrence of `c`: the pair of the part strictly
before and the part strictly after it.  Models Rust's `str::find(c)` followed by
slicing around the found index; `none` when `c` does not occur. -/
def splitFirst (c : Char) : CL → Option (CL × CL)
  | [] => none
  | x :: xs =>
    if x = c then some ([], xs)
    else (splitFirst c xs).map (fun p => (x :: p.1, p.2))

theorem splitFirst_cons_self (c : Char) (r : CL) : splitFirst c (c :: r) = some ([], r) := by
  simp [splitFirst]

theorem splitFirst_eq_none (c : Char) {l : CL} (h : c ∉ l) : splitFirst c l = none := by
  induction l with
  | nil => rfl
  | cons x xs ih =>
    simp only [List.mem_cons, not_or] at h
    simp [splitFirst, Ne.symm (h.1), h.1, ih h.2]

theorem splitFirst_some_spec {c : Char} : ∀ {l p s : CL},
    splitFirst c l = some (p, s) → l = p ++ c :: s ∧ c ∉ p := by
  intro l
  induction l with
  | nil => intro p s h; simp [splitFirst] at h
  | cons x xs ih =>
    intro p s h
    by_cases hx : x = c
    · subst hx
      simp [splitFirst] at h
      obtain ⟨hp, hs⟩ := h
      subst hp; subst hs
      simp
    · rw [splitFirst, if_neg hx] at h
      cases hsp : splitFirst c xs with
      | none => rw [hsp] at h; simp at h
      | some q =>
        rw [hsp] at h
        simp only [Option.map_some', Option.some.injEq, Prod.mk.injEq] at h
        obtain ⟨h1, h2⟩ := ih (p := q.1) (s := q.2) (by rw [hsp])
        obtain ⟨hp, hs⟩ := h
        subst hp
        subst hs
        constructor
        · simp [h1]
        · intro hc
          rcases List.mem_cons.mp hc with he | he
          · exact hx he.symm
          · exact h2 he

theorem splitFirst_append_left {c : Char} {a : CL} (b : CL) (h : c ∉ a) :
    splitFirst c (a ++ b) = (splitFirst c b).map (fun p => (a ++ p.1, p.2)) := by
  induction a with
  | nil =>
    simp only [List.nil_append]
    cases splitFirst c b <;> simp
  | cons x xs ih =>
    simp only [List.mem_cons, not_or] at h
    have hxc : ¬ x = c := fun he => h.1 he.symm
    simp only [List.cons_append, splitFirst, hxc, if_false, List.append_eq]
    rw [ih h.2]
    cases splitFirst c b <;> simp

theorem splitFirst_append_cons {c : Char} {p : CL} (s : CL) (h : c ∉ p) :
    splitFirst c (p ++ c :: s) = some (p, s) := by
  rw [splitFirst_append_left _ h, splitFirst_cons_self]
  simp

theorem splitFirst_some_len {c : Char} {l p s : CL} (h : splitFirst c l = some (p, s)) :
    s.length < l.length := by
  have := (splitFirst_some_spec h).1
  subst this
  simp
  omega

/-- Generic alternation of literal text and captures, the information content of
the anchored matchers both compilers build. -/
inductive GSeg (α : Type) where
  | lit (s : CL)
  | cap (a : α)
deriving DecidableEq

/-- Backtracking helper: try capture lengths `n, n-1, ..., 1` (the greedy,
longest-first preference of a `X+` subpattern), accepting a prefix iff `ok`
holds of it and the continuation `k` matches the remaining characters. -/
def tryLens {α : Type} (ok : α → CL → Bool) (a : α) (k : CL → Option (List CL)) (cs : CL) :
    Nat → Option (List CL)
  | 0 => none
  | n + 1 =>
    match (if ok a (cs.take (n + 1)) then
             (k (cs.drop (n + 1))).map (fun caps => cs.take (n + 1) :: caps)
           else none) with
    | some r => some r
    | none => tryLens ok a k cs n

/-- Anchored matching of a segment list against a whole path, returning the list
of captured substrings in capture order.  This is the model of `regex.captures`
for the anchored `^...$` patterns the two compilers emit: literals must match
exactly and each capture class consumes a nonempty run accepted by `ok`. -/
def matchSegs {α : Type} (ok : α → CL → Bool) : List (GSeg α) → CL → Option (List CL)
  | [], cs => if cs = [] then some [] else none
  | GSeg.lit l :: rest, cs =>
    if l.isPrefixOf cs then matchSegs ok rest (cs.drop l.length) else none
  | GSeg.cap a :: rest, cs => tryLens ok a (matchSegs ok rest) cs cs.length

/-- Interleave the literals of `segs` with the captured values, reproducing the
matched subject string. -/
def reconstruct {α : Type} : List (GSeg α) → List CL → CL
  | [], _ => []
  | GSeg.lit l :: rest, caps => l ++ reconstruct rest caps
  | GSeg.cap _ :: _, [] => []
  | GSeg.cap _ :: rest, v :: caps => v ++ reconstruct rest caps

/-- Number of capture groups in a segment list. -/
def capCount {α : Type} (segs : List (GSeg α)) : Nat :=
  segs.countP (fun s => match s with | GSeg.cap _ => true | _ => false)

theorem tryLens_spec {α : Type} (ok : α → CL → Bool) (a : α) (k : CL → Option (List CL))
    (cs : CL) : ∀ n r, tryLens ok a k cs n = some r →
    ∃ j caps, 1 ≤ j ∧ ok a (cs.take j) = true ∧ k (cs.drop j) = some caps ∧
      r = cs.take j :: caps := by
  intro n
  induction n with
  | zero => intro r h; simp [tryLens] at h
  | succ n ih =>
    intro r h
    rw [tryLens] at h
    by_cases hok : ok a (cs.take (n + 1)) = true
    · simp only [hok, if_true] at h
      cases hk : k (cs.drop (n + 1)) with
      | some caps =>
        rw [hk] at h
        simp at h
        exact ⟨n + 1, caps, by omega, hok, hk, h.symm⟩
      | none =>
        rw [hk] at h
        simp at h
        exact ih r h
    · simp only [hok] at h
      simp at h
      exact ih r h

theorem matchSegs_sound {α : Type} (ok : α → CL → Bool) : ∀ (segs : List (GSeg α)) (cs : CL)
    (caps : List CL), matchSegs ok segs cs = some caps →
    reconstruct segs caps = cs ∧ caps.length = capCount segs := by
  intro segs
  induction segs with
  | nil =>
    intro cs caps h
    simp only [matchSegs] at h
    by_cases hc : cs = ([] : CL)
    · subst hc
      simp at h
      simp [← h, reconstruct, capCount]
    · simp [hc] at h
  | cons seg rest ih =>
    intro cs caps h
    cases seg with
    | lit l =>
      simp only [matchSegs] at h
      by_cases hp : l.isPrefixOf cs
      · simp only [hp, if_true] at h
        obtain ⟨h1, h2⟩ := ih _ _ h
        have hpre : l <+: cs := by
          exact List.isPrefixOf_iff_prefix.mp hp
        constructor
        · simp only [reconstruct, h1]
          exact List.prefix_iff_eq_append.mp hpre
        · simpa [capCount] using h2
      · simp [hp] at h
    | cap a =>
      simp only [matchSegs] at h
      obtain ⟨j, caps', hj, hok, hk, hr⟩ := tryLens_spec ok a _ cs cs.length caps h
      obtain ⟨h1, h2⟩ := ih _ _ hk
      subst hr
      constructor
      · simp only [reconstruct, h1]
        exact List.take_append_drop j cs
      · simp [capCount] at h2 ⊢
        omega

/-- First-match lookup in an association list with string keys (models a map
probe such as `DashMap::get` where keys are unique). -/
def lookupA {α : Type} : List (String × α) → String → Option α
  | [], _ => none
  | (k, v) :: rest, q => if k = q then some v else lookupA rest q

/-- Remove the entry with the given key (models `DashMap::remove`). -/
def removeA {α : Type} : List (String × α) → String → List (String × α)
  | [], _ => []
  | (k, v) :: rest, q => if k = q then removeA rest q else (k, v) :: removeA rest q

/-- Keyed overwrite (models `DashMap::insert`): replace the existing entry in
place if the key is present, otherwise append.  The position a brand-new key
takes in the map's iteration order is not specified by DashMap; appending is a
determinization and theorems about iteration order quantify over enumerations
instead of relying on it. -/
def insertA {α : Type} : List (String × α) → String → α → List (String × α)
  | [], k, v => [(k, v)]
  | (k0, v0) :: rest, k, v =>
    if k0 = k then (k, v) :: rest else (k0, v0) :: insertA rest k v

theorem lookupA_insertA_self {α : Type} : ∀ (l : List (String × α)) (k : String) (v : α),
    lookupA (insertA l k v) k = some v := by
  intro l k v
  induction l with
  | nil => simp [insertA, lookupA]
  | cons p rest ih =>
    by_cases h : p.1 = k
    · simp [insertA, h, lookupA]
    · simp [insertA, h, lookupA, ih]

theorem lookupA_removeA_self {α : Type} : ∀ (l : List (String × α)) (k : String),
    lookupA (removeA l k) k = none := by
  intro l k
  induction l with
  | nil => rfl
  | cons p rest ih =>
    by_cases h : p.1 = k
    · simp [removeA, h, ih]
    · simp [removeA, h, lookupA, ih]

/-- Last-wins lookup in an association list built by successive `HashMap::insert`
calls (a later insert of the same key overwrites an earlier one). -/
def hmGet {α : Type} : List (String × α) → String → Option α
  | [], _ => none
  | (k, v) :: rest, q =>
    match hmGet rest q with
    | some r => some r
    | none => if k = q then some v else none

theorem hmGet_mem {α : Type} : ∀ {l : List (String × α)} {q : String} {v : α},
    hmGet l q = some v → (q, v) ∈ l := by
  intro l
  induction l with
  | nil => intro q v h; simp [hmGet] at h
  | cons p rest ih =>
    intro q v h
    rw [hmGet] at h
    cases hr : hmGet rest q with
    | some r =>
      rw [hr] at h
      simp at h
      subst h
      exact List.mem_cons_of_mem _ (ih hr)
    | none =>
      rw [hr] at h
      by_cases hk : p.1 = q
      · rw [if_pos hk] at h
        have hv : p.2 = v := Option.some.inj h
        subst hk
        rw [← hv]
        simp
      · rw [if_neg hk] at h
        exact absurd h (by simp)

theorem hmGet_eq_none_of_not_mem {α : Type} : ∀ {l : List (String × α)} {q : String},
    q ∉ l.map Prod.fst → hmGet l q = none := by
  intro l
  induction l with
  | nil => intro q _; rfl
  | cons p rest ih =>
    intro q h
    simp only [List.map_cons, List.mem_cons, not_or] at h
    simp only [hmGet, ih h.2]
    exact if_neg (fun he => h.1 he.symm)

/-
  Embedding of src/rust-core/src/routing.rs.
-/

/-- ASCII fragment of Rust's `char::is_alphanumeric` (the Unicode classes are
out of scope; every input a claim is settled on is ASCII). -/
def rustAlphanumeric (c : Char) : Bool := c.isAlphanum

/-- Model of the regex character class `\w` restricted to ASCII (ASCII
alphanumerics plus underscore). -/
def wordCharR (c : Char) : Bool := c.isAlphanum || c = '_'

/-- Hexadecimal digit, upper or lower case, as in the compiled uuid class. -/
def isHexDigitR (c : Char) : Bool :=
  c.isDigit || (decide (97 ≤ c.toNat) && decide (c.toNat ≤ 102)) ||
    (decide (65 ≤ c.toNat) && decide (c.toNat ≤ 70))

/-- Numeric value of an ASCII digit string (left fold, as positional decimal). -/
def natOfDigits (ds : CL) : Nat := ds.foldl (fun acc c => acc * 10 + (c.toNat - 48)) 0

/-- Model of `str::parse::<i64>().is_ok()`: optional `+`/`-` sign, at least one
ASCII decimal digit, value within the i64 range (parse fails on overflow). -/
def rustI64ParseOk (v : CL) : Bool :=
  let sd : Bool × CL :=
    match v with
    | '+' :: r => (false, r)
    | '-' :: r => (true, r)
    | r => (false, r)
  !sd.2.isEmpty && sd.2.all Char.isDigit &&
    (if sd.1 then decide (natOfDigits sd.2 ≤ 2 ^ 63) else decide (natOfDigits sd.2 < 2 ^ 63))

/-- Split at the first character satisfying `p` (see `splitFirst`). -/
def splitFirstP (p : Char → Bool) : CL → Option (CL × CL)
  | [] => none
  | x :: xs =>
    if p x then some ([], xs)
    else (splitFirstP p xs).map (fun q => (x :: q.1, q.2))

/-- Decimal part of the grammar accepted by `str::parse::<f64>`:
`Digits | Digits . Digits? | . Digits`. -/
def decimalOk (m : CL) : Bool :=
  match splitFirst '.' m with
  | none => !m.isEmpty && m.all Char.isDigit
  | some (a, b) =>
    a.all Char.isDigit && b.all Char.isDigit && (!a.isEmpty || !b.isEmpty)

/-- Exponent part of the float grammar: optional sign then at least one digit. -/
def expPartOk (e : CL) : Bool :=
  let d : CL := match e with
    | '+' :: r => r
    | '-' :: r => r
    | r => r
  !d.isEmpty && d.all Char.isDigit

/-- ASCII lower-casing, for the case-insensitive inf/nan keywords. -/
def asciiLower (c : Char) : Char :=
  if decide (65 ≤ c.toNat) && decide (c.toNat ≤ 90) then Char.ofNat (c.toNat + 32) else c

/-- Model of `str::parse::<f64>().is_ok()`: Rust's `FromStr` for f64 accepts
`[+-]? (inf | infinity | nan | Decimal ((e|E) Exp)?)` case-insensitively and
never fails on overflow, so `is_ok` is exactly grammar membership; no
floating-point values are involved. -/
def rustF64ParseOk (v : CL) : Bool :=
  let b : CL := match v with
    | '+' :: r => r
    | '-' :: r => r
    | r => r
  let lb := b.map asciiLower
  lb = "inf".data || lb = "infinity".data || lb = "nan".data ||
    (match splitFirstP (fun c => c = 'e' || c = 'E') b with
     | none => decimalOk b
     | some (m, ex) => decimalOk m && expPartOk ex)

/-- The five parameter types of routing.rs (`ParamType`). -/
inductive ParamType where
  | string
  | integer
  | float
  | uuid
  | slug
deriving DecidableEq

/-- `parse_param_type` of routing.rs: type names map to their `ParamType`,
anything unknown defaults to `String`. -/
def parse_param_type (t : CL) : ParamType :=
  if t = "int".data then ParamType.integer
  else if t = "float".data then ParamType.float
  else if t = "uuid".data then ParamType.uuid
  else if t = "slug".data then ParamType.slug
  else ParamType.string

/-- One step of the pattern walk of `RoutePattern::compile`: a literal run or a
`{name:type}` placeholder (with the raw spec split on colons as in the source,
where `split(':')` makes the name everything before the first colon and the
type the text between the first and second colon). -/
inductive RPart where
  | lit (s : CL)
  | param (name : CL) (ty : ParamType)
deriving DecidableEq

/-- Splitting of the text between `{` and `}` into name and type, following
`param_spec.contains(':')` / `param_spec.split(':')` in the source. -/
def specSplit (spec : CL) : CL × ParamType :=
  match splitFirst ':' spec with
  | none => (spec, ParamType.string)
  | some (n, r) =>
    let tyStr : CL :=
      match splitFirst ':' r with
      | none => r
      | some (t, _) => t
    (n, parse_param_type tyStr)

/-- The scanning loop of `RoutePattern::compile`: repeatedly find the next `{`,
emit the literal before it, and either consume through the next `}` as a
placeholder or (if no `}` follows anywhere) emit the `{` itself as literal text
and keep scanning.  The regex escaping of literal runs preserves their literal
matching semantics, so literals are kept as plain text. -/
def walkPartsF : Nat → CL → List RPart
  | 0, cs => [RPart.lit cs]
  | fuel + 1, cs =>
    match splitFirst '{' cs with
    | none => [RPart.lit cs]
    | some (pre, suf) =>
      match splitFirst '}' suf with
      | some (spec, rest) =>
        RPart.lit pre :: RPart.param (specSplit spec).1 (specSplit spec).2 ::
          walkPartsF fuel rest
      | none => RPart.lit pre :: RPart.lit ['{'] :: walkPartsF fuel suf

/-- The walk itself; every recursive step strictly shortens the remaining text,
so `length + 1` units of fuel make the fuel bound unreachable. -/
def walkParts (cs : CL) : List RPart := walkPartsF (cs.length + 1) cs

/-- The uuid capture class (eight, four, four, four, twelve hex digits joined
by hyphens) as a shape test on the captured text. -/
def uuidShape (v : CL) : Bool :=
  match splitFirst '-' v with
  | none => false
  | some (g1, r1) =>
    match splitFirst '-' r1 with
    | none => false
    | some (g2, r2) =>
      match splitFirst '-' r2 with
      | none => false
      | some (g3, r3) =>
        match splitFirst '-' r3 with
        | none => false
        | some (g4, g5) =>
          decide (g1.length = 8) && decide (g2.length = 4) && decide (g3.length = 4) &&
            decide (g4.length = 4) && decide (g5.length = 12) &&
            (g1 ++ g2 ++ g3 ++ g4 ++ g5).all isHexDigitR

/-- The per-type capture sub-matchers emitted by `RoutePattern::compile`
(`(-?\d+)`, `(-?\d+\.?\d*)`, the uuid class, `([\w\-]+)`, `([^/]+)`), as
acceptance predicates on the captured text.  `\d` is modelled as ASCII
digits. -/
def rClassOk (t : ParamType) (v : CL) : Bool :=
  match t with
  | ParamType.integer =>
    (match v with
     | '-' :: r => !r.isEmpty && r.all Char.isDigit
     | r => !r.isEmpty && r.all Char.isDigit)
  | ParamType.float =>
    (let b : CL := match v with | '-' :: r => r | r => r
     match splitFirst '.' b with
     | none => !b.isEmpty && b.all Char.isDigit
     | some (a, frac) => !a.isEmpty && a.all Char.isDigit && frac.all Char.isDigit)
  | ParamType.uuid => uuidShape v
  | ParamType.slug => !v.isEmpty && v.all (fun c => wordCharR c || c = '-')
  | ParamType.string => !v.isEmpty && v.all (fun c => c ≠ '/')

/-- Compiled matcher record of routing.rs (`RoutePattern`): the anchored
segment alternation standing for the built regex, the capture names in group
order (`param_names`), and the name-to-type map (`param_types`). -/
structure RoutePattern where
  segs : List (GSeg ParamType)
  param_names : List String
  param_types : List (String × ParamType)
deriving DecidableEq

/-- Segments of the compiled regex: literals stay literal (escaping preserved
them), each placeholder becomes one capture class. -/
def partsToSegs : List RPart → List (GSeg ParamType)
  | [] => []
  | RPart.lit s :: r => GSeg.lit s :: partsToSegs r
  | RPart.param _ t :: r => GSeg.cap t :: partsToSegs r

/-- Capture names in group order. -/
def partsNames : List RPart → List String
  | [] => []
  | RPart.lit _ :: r => partsNames r
  | RPart.param n _ :: r => (⟨n⟩ : String) :: partsNames r

/-- The `param_types` HashMap, kept in insertion order (`hmGet` gives the
last-wins overwrite semantics of `HashMap::insert`). -/
def partsTypes : List RPart → List (String × ParamType)
  | [] => []
  | RPart.lit _ :: r => partsTypes r
  | RPart.param n t :: r => ((⟨n⟩ : String), t) :: partsTypes r

/-- `RoutePattern::compile`.  The source's fallback for a failed regex build is
unreachable: escaped literals and the fixed class texts always form a valid
regex. -/
def RoutePattern.compile (path : String) : RoutePattern :=
  { segs := partsToSegs (walkParts path.data), param_names := partsNames (walkParts path.data),
    param_types := partsTypes (walkParts path.data) }

/-- `validate_param_type` of routing.rs: the re-validation predicates applied to
each captured value. -/
def validate_param_type (v : CL) : ParamType → Bool
  | ParamType.integer => rustI64ParseOk v
  | ParamType.float => rustF64ParseOk v
  | ParamType.uuid => decide (v.length = 36) && decide (v.countP (fun c => c = '-') = 4)
  | ParamType.slug => v.all (fun c => rustAlphanumeric c || c = '-')
  | ParamType.string => true

/-- The extraction loop of `extract_path_params`: walk the capture names in
group order, validate each captured value against `param_types`, and build the
parameter HashMap (insertion order; a missing capture is skipped).  Failure of
any validation aborts with `none`. -/
def extractAux (types : String → Option ParamType) :
    List String → List CL → Option (List (String × CL))
  | [], _ => some []
  | _ :: ns, [] => extractAux types ns []
  | n :: ns, v :: vs =>
    if (match types n with
        | some t => validate_param_type v t
        | none => true) then
      (extractAux types ns vs).map (fun l => (n, v) :: l)
    else none

/-- `extract_path_params` of routing.rs: run the compiled matcher on the path;
on a regex match, validate and collect the captures. -/
def extract_path_params (pat : RoutePattern) (path : String) : Option (List (String × CL)) :=
  match matchSegs rClassOk pat.segs path.data with
  | none => none
  | some caps => extractAux (fun n => hmGet pat.param_types n) pat.param_names caps

/-- Textual substitution of extracted parameters back into a pattern: every
`{name}` / `{name:type}` occurrence (as delimited by the compile walk) is
replaced by the extracted value of `name`; literal text is kept.  This is the
claim-side operation of the round-trip property. -/
def substParts (m : List (String × CL)) : List RPart → CL
  | [] => []
  | RPart.lit s :: r => s ++ substParts m r
  | RPart.param n _ :: r => ((hmGet m (⟨n⟩ : String)).getD []) ++ substParts m r

/-- Substitution into the pattern string itself. -/
def substPattern (p : String) (m : List (String × CL)) : CL :=
  substParts m (walkParts p.data)

/-
  Embedding of the cache entry of src/rust-core/src/lib.rs.
-/

/-- `CachedResponse` of lib.rs: unix-seconds timestamps. -/
structure RsCachedResponse where
  body : String
  content_type : String
  status : Nat
  created_at : Nat
  ttl_seconds : Nat
deriving DecidableEq

/-- `CachedResponse::is_expired` of lib.rs: `now > created_at + ttl_seconds`. -/
def RsCachedResponse.is_expired (c : RsCachedResponse) (now : Nat) : Bool :=
  decide (now > c.created_at + c.ttl_seconds)

/-- The cache tier of lib.rs's `ultra_fast_handler` serves a found entry exactly
when `!cached.is_expired()`. -/
def rsCacheServes (c : RsCachedResponse) (now : Nat) : Bool := !(c.is_expired now)

/-
  Embedding of src/rust-core/src/lib_ultimate.rs.
-/

/-- Minimal JSON value model for the response envelope crossing the foreign
bridge (numbers are restricted to the naturals the envelope accessors use). -/
inductive Json where
  | null
  | bool (b : Bool)
  | num (n : Nat)
  | str (s : String)
  | arr (elems : List Json)
  | obj (fields : List (String × Json))

/-- First field with the given key of a JSON object. -/
def jsonField : List (String × Json) → String → Option Json
  | [], _ => none
  | (k, v) :: rest, q => if k = q then some v else jsonField rest q

/-- Model of `serde_json::Value` string indexing: `Null` for a missing key or a
non-object value. -/
def Json.idx (j : Json) (k : String) : Json :=
  match j with
  | Json.obj fs => (jsonField fs k).getD Json.null
  | _ => Json.null

/-- Model of `Value::as_str`. -/
def Json.asStr : Json → Option String
  | Json.str s => some s
  | _ => none

/-- Model of `Value::as_u64` (only the natural-number case is represented). -/
def Json.asU64 : Json → Option Nat
  | Json.num n => some n
  | _ => none

/-- The envelope parsing of `call_ultra_fast_python_handler`: body defaults to
`{}`, status defaults to 200 and is truncated `as u16`, headers start from the
two fixed entries and are overwritten by every string-valued field of the
envelope's `headers` object. -/
def parseEnvelope (j : Json) : String × Nat × List (String × String) :=
  let body := ((j.idx "body").asStr).getD "\x7b\x7d"
  let status := (((j.idx "status").asU64).getD 200) % 65536
  let base : List (String × String) :=
    [("content-type", "application/json"), ("x-sufast-engine", "rust-python-ffi")]
  let hdrs :=
    match j.idx "headers" with
    | Json.obj fs =>
      fs.foldl (fun acc kv =>
        match kv.2.asStr with
        | some s => insertA acc kv.1 s
        | none => acc) base
    | _ => base
  (body, status, hdrs)

/-- The registered foreign callback: three C strings in, and either a null
pointer (`none`), a returned string that does not parse as JSON (`some none`),
or a parsed JSON value. -/
def UCallback : Type := String → String → String → Option (Option Json)

/-- Whether a Rust `CString::new` of this text fails (interior NUL byte). -/
def containsNul (s : String) : Bool := s.data.any (fun c => c.toNat = 0)

/-- `call_ultra_fast_python_handler`: every failure (no callback registered,
interior NUL in an argument, null return, unparseable JSON) is an `Err`; on a
parsed envelope the body/status/headers are extracted with their defaults. -/
def callBridge (cb : Option UCallback) (method path params : String) :
    Except String (String × Nat × List (String × String)) :=
  match cb with
  | none => Except.error "Python callback failed"
  | some f =>
    if containsNul method || containsNul path || containsNul params then
      Except.error "NulError"
    else
      match f method path params with
      | none => Except.error "Python callback returned null"
      | some none => Except.error "Python callback failed"
      | some (some j) => Except.ok (parseEnvelope j)

/-- The replacement text `(?P<spec>[^/]+)` that `compile_ultra_fast_pattern`
splices in for the text `spec` found between `{` and `}`. -/
def groupOf (spec : CL) : CL :=
  '(' :: '?' :: 'P' :: '<' :: (spec ++ '>' :: '[' :: '^' :: '/' :: ']' :: '+' :: ')' :: [])

/-- The rewrite loop of `compile_ultra_fast_pattern`: find the first `{`, find
the first `}` after it, replace the whole brace span by the capture-group text,
and rescan the result from the start; stop when no `{` or no following `}`
remains.  Each successful step removes exactly one `}`, so the fuel below makes
the bound unreachable. -/
def ultraRewriteAux : Nat → CL → CL
  | 0, cs => cs
  | fuel + 1, cs =>
    match splitFirst '{' cs with
    | none => cs
    | some (pre, suf) =>
      match splitFirst '}' suf with
      | none => cs
      | some (spec, rest) => ultraRewriteAux fuel (pre ++ groupOf spec ++ rest)

def ultraRewrite (cs : CL) : CL := ultraRewriteAux (cs.countP (fun c => c = '}') + 1) cs

def grpOpen : CL := '(' :: '?' :: 'P' :: '<' :: []

def capTailU : CL := '[' :: '^' :: '/' :: ']' :: '+' :: ')' :: []

/-- Validity of a regex capture-group name, modelled from the regex crate's
documented rule: nonempty, begins with an ASCII letter or underscore, and
contains only ASCII alphanumerics or underscores.  In every released version of
the crate a `:` inside a group name is rejected. -/
def groupNameOk (n : CL) : Bool :=
  match n with
  | [] => false
  | c :: rest => (c.isAlpha || c = '_') && rest.all (fun d => d.isAlphanum || d = '_')

/-- Model of `Regex::new` on the strings the rewrite loop produces: the string
is an alternation of literal characters and `(?P<name>[^/]+)` groups; building
fails exactly when some group name is invalid.  (Literal characters that are
themselves regex metacharacters are outside the scope of the claims; every
pattern a claim is settled on keeps its literals plain path text.) -/
def parseURegexAux : Nat → CL → Option (List (GSeg String))
  | _, [] => some []
  | 0, _ :: _ => none
  | fuel + 1, c :: cs =>
    if grpOpen.isPrefixOf (c :: cs) then
      match splitFirst '>' ((c :: cs).drop 4) with
      | none => none
      | some (name, rest) =>
        if groupNameOk name then
          if capTailU.isPrefixOf rest then
            (parseURegexAux fuel (rest.drop 6)).map
              (fun segs => GSeg.cap ((⟨name⟩ : String)) :: segs)
          else none
        else none
    else (parseURegexAux fuel cs).map (fun segs => GSeg.lit [c] :: segs)

def parseURegex (cs : CL) : Option (List (GSeg String)) := parseURegexAux (cs.length + 1) cs

/-- Capture names of a compiled ultra pattern, in group order (the order
`capture_names` iterates). -/
def capNamesU : List (GSeg String) → List String
  | [] => []
  | GSeg.lit _ :: r => capNamesU r
  | GSeg.cap n :: r => n :: capNamesU r

/-- `compile_ultra_fast_pattern`: run the rewrite loop, then build the regex.
The regex crate additionally rejects duplicate capture-group names, which the
final check models. -/
def compileUltraPattern (pattern : CL) : Option (List (GSeg String)) :=
  match parseURegex (ultraRewrite pattern) with
  | none => none
  | some segs => if (capNamesU segs).Nodup then some segs else none

/-- The Unicode replacement character U+FFFD. -/
def replChar : Char := Char.ofNat 0xFFFD

def utf8Cont (b : Nat) : Bool := decide (128 ≤ b) && decide (b ≤ 191)

def utf8SecondOk (b1 b2 : Nat) : Bool :=
  if b1 = 224 then decide (160 ≤ b2) && decide (b2 ≤ 191)
  else if b1 = 237 then decide (128 ≤ b2) && decide (b2 ≤ 159)
  else if b1 = 240 then decide (144 ≤ b2) && decide (b2 ≤ 191)
  else if b1 = 244 then decide (128 ≤ b2) && decide (b2 ≤ 143)
  else utf8Cont b2

/-- Model of Rust's `String::from_utf8_lossy` (used by `to_string_lossy` on the
registration arguments): well-formed sequences decode to their scalar values,
every maximal invalid subsequence becomes one U+FFFD.  In particular it never
fails. -/
def utf8LossyDecodeF : Nat → List Nat → CL
  | 0, _ => []
  | _, [] => []
  | fuel + 1, b1 :: rest =>
    if b1 < 128 then Char.ofNat b1 :: utf8LossyDecodeF fuel rest
    else if decide (194 ≤ b1) && decide (b1 ≤ 223) then
      match rest with
      | [] => [replChar]
      | b2 :: r =>
        if utf8Cont b2 then Char.ofNat ((b1 - 192) * 64 + (b2 - 128)) :: utf8LossyDecodeF fuel r
        else replChar :: utf8LossyDecodeF fuel rest
    else if decide (224 ≤ b1) && decide (b1 ≤ 239) then
      match rest with
      | [] => [replChar]
      | b2 :: r1 =>
        if utf8SecondOk b1 b2 then
          match r1 with
          | [] => [replChar]
          | b3 :: r2 =>
            if utf8Cont b3 then
              Char.ofNat ((b1 - 224) * 4096 + (b2 - 128) * 64 + (b3 - 128)) ::
                utf8LossyDecodeF fuel r2
            else replChar :: utf8LossyDecodeF fuel r1
        else replChar :: utf8LossyDecodeF fuel rest
    else if decide (240 ≤ b1) && decide (b1 ≤ 244) then
      match rest with
      | [] => [replChar]
      | b2 :: r1 =>
        if utf8SecondOk b1 b2 then
          match r1 with
          | [] => [replChar]
          | b3 :: r2 =>
            if utf8Cont b3 then
              match r2 with
              | [] => [replChar]
              | b4 :: r3 =>
                if utf8Cont b4 then
                  Char.ofNat ((b1 - 240) * 262144 + (b2 - 128) * 4096 +
                      (b3 - 128) * 64 + (b4 - 128)) :: utf8LossyDecodeF fuel r3
                else replChar :: utf8LossyDecodeF fuel r2
            else replChar :: utf8LossyDecodeF fuel r1
        else replChar :: utf8LossyDecodeF fuel rest
    else replChar :: utf8LossyDecodeF fuel rest

/-- Every step consumes at least one byte, so `length + 1` units of fuel make
the fuel bound unreachable. -/
def utf8LossyDecode (bs : List Nat) : CL := utf8LossyDecodeF (bs.length + 1) bs

/-- `StaticResponse` of lib_ultimate.rs. -/
structure UStatic where
  body : String
  status : Nat
  headers : List (String × String)
deriving DecidableEq

/-- `CachedResponse` of lib_ultimate.rs (`Instant`/`Duration` in abstract time
units; the dispatcher only compares elapsed time against the TTL). -/
structure UCached where
  body : String
  status : Nat
  headers : List (String × String)
  cachedAt : Nat
  ttl : Nat
deriving DecidableEq

/-- `DynamicRoute` of lib_ultimate.rs: the compiled regex (as its segment
alternation), the handler name, and the optional cache TTL. -/
structure URoute where
  segs : List (GSeg String)
  handlerName : String
  cacheTtl : Option Nat
deriving DecidableEq

/-- The process-wide mutable state of lib_ultimate.rs: the three DashMaps and
the four atomic counters.  `dynamics` lists the map's contents in its iteration
order. -/
structure UState where
  statics : List (String × UStatic)
  cache : List (String × UCached)
  dynamics : List (String × URoute)
  staticHits : Nat
  cacheHits : Nat
  dynamicHits : Nat
  totalRequests : Nat
deriving DecidableEq

/-- The observable response of one dispatch: status, body, the
`x-sufast-tier` header value, the `x-sufast-handler` header when present, the
`x-sufast-request-id` value and the `x-sufast-cache-age` value when present. -/
structure UResp where
  status : Nat
  body : String
  tier : String
  handlerName : Option String
  requestId : Nat
  cacheAge : Option Nat
deriving DecidableEq

/-- Outcome of the dynamic-tier loop when some route matched and its callback
produced a parsed envelope: what is returned and what (if anything) is inserted
into the TTL cache. -/
structure DynOutcome where
  handlerName : String
  status : Nat
  body : String
  headers : List (String × String)
  routeTtl : Option Nat
  cacheIns : Option UCached
deriving DecidableEq

/-- The `[^/]+` capture class of the ultra patterns. -/
def ucapOk (_ : String) (v : CL) : Bool := !v.isEmpty && v.all (fun c => c ≠ '/')

/-- `route.regex.captures(path)` plus the `capture_names` walk: on a match the
named captures in group order. -/
def uMatch (segs : List (GSeg String)) (path : CL) : Option (List (String × CL)) :=
  (matchSegs ucapOk segs path).map (fun caps => (capNamesU segs).zip caps)

def joinComma : List CL → CL
  | [] => []
  | [x] => x
  | x :: xs => x ++ ',' :: joinComma xs

/-- The handler's parameter JSON built by string concatenation (no escaping,
as in the source). -/
def paramsJsonStr (prs : List (String × CL)) : String :=
  (⟨'\x7b' :: (joinComma (prs.map (fun p =>
      '"' :: p.1.data ++ '"' :: ':' :: '"' :: p.2 ++ ['"']))) ++ ['\x7d']⟩ : String)

/-- The dynamic-tier loop of `ultra_fast_handler`: iterate the dynamic routes
in the map's iteration order; on a regex match call the bridge; an `Err` from
the bridge moves on to the next route; on `Ok` build the response, deciding the
cache insertion by `status == 200 && route.cache_ttl.is_some()`. -/
def dynLoop (cb : Option UCallback) (now : Nat) (method path : String) :
    List (String × URoute) → Option DynOutcome
  | [] => none
  | (_, r) :: rest =>
    match uMatch r.segs path.data with
    | none => dynLoop cb now method path rest
    | some prs =>
      match callBridge cb method path (paramsJsonStr prs) with
      | Except.error _ => dynLoop cb now method path rest
      | Except.ok (body, status, hdrs) =>
        some { handlerName := r.handlerName, status := status, body := body, headers := hdrs,
               routeTtl := r.cacheTtl,
               cacheIns :=
                 if status = 200 ∧ r.cacheTtl.isSome then
                   some { body := body, status := status, headers := hdrs, cachedAt := now,
                          ttl := r.cacheTtl.getD 0 }
                 else none }

/-- The 404 fallback body (the `error`, `method`, `path`, `status` fields of
the source's JSON; the embedded performance statistics are not modelled as no
claim inspects them). -/
def mk404Body (method path : String) : String :=
  "\x7b\"error\":\"Route not found\",\"method\":\"" ++ method ++ "\",\"path\":\"" ++ path ++
    "\",\"status\":404\x7d"

/-- Tier 3 of `ultra_fast_handler`: the dynamic counter is incremented before
any matching is attempted; then either a matched route's response (with its
cache insertion under the composed key) or the 404 fallback. -/
def dynamicTier (cb : Option UCallback) (now : Nat) (method path key : String) (st : UState) :
    UResp × UState :=
  let st1 := { st with dynamicHits := st.dynamicHits + 1 }
  match dynLoop cb now method path st1.dynamics with
  | some o =>
    ({ status := o.status, body := o.body, tier := "dynamic", handlerName := some o.handlerName,
       requestId := st1.totalRequests, cacheAge := none },
     match o.cacheIns with
     | some c => { st1 with cache := insertA st1.cache key c }
     | none => st1)
  | none =>
    ({ status := 404, body := mk404Body method path, tier := "404", handlerName := none,
       requestId := st1.totalRequests, cacheAge := none }, st1)

/-- `ultra_fast_handler` of lib_ultimate.rs: increment the total counter, probe
the static store under `METHOD:path`, then the TTL cache (serving a fresh entry,
evicting a stale one), then run the dynamic tier.  `now` is the current instant
in the same time unit as the cache entries; the request headers and body are
unused by the source (`_headers`, `_body`). -/
def ultraFastHandler (cb : Option UCallback) (now : Nat) (method path : String) (st : UState) :
    UResp × UState :=
  let st0 := { st with totalRequests := st.totalRequests + 1 }
  let key := method ++ ":" ++ path
  match lookupA st0.statics key with
  | some sr =>
    ({ status := sr.status, body := sr.body, tier := "static", handlerName := none,
       requestId := st0.totalRequests, cacheAge := none },
     { st0 with staticHits := st0.staticHits + 1 })
  | none =>
    match lookupA st0.cache key with
    | some c =>
      if now - c.cachedAt < c.ttl then
        ({ status := c.status, body := c.body, tier := "cached", handlerName := none,
           requestId := st0.totalRequests, cacheAge := some (now - c.cachedAt) },
         { st0 with cacheHits := st0.cacheHits + 1 })
      else
        dynamicTier cb now method path key { st0 with cache := removeA st0.cache key }
    | none => dynamicTier cb now method path key st0

/-- `add_dynamic_route` of lib_ultimate.rs, over the raw C-string arguments
(`none` is a null pointer, otherwise the pointed-to bytes).  Null arguments
fail; the strings are decoded lossily (never failing); the method is only
null-checked and then discarded; pattern compilation failure returns false with
no state change; success overwrites the route keyed by the pattern text. -/
def addDynamicRoute (method pattern handler : Option (List Nat)) (ttl : Nat) (st : UState) :
    Bool × UState :=
  match method, pattern, handler with
  | some _, some pb, some hb =>
    let patternC := utf8LossyDecode pb
    let handlerC := utf8LossyDecode hb
    match compileUltraPattern patternC with
    | some segs =>
      let route : URoute :=
        { segs := segs, handlerName := ((⟨handlerC⟩ : String)),
          cacheTtl := if ttl > 0 then some ttl else none }
      (true, { st with dynamics := insertA st.dynamics ((⟨patternC⟩ : String)) route })
    | none => (false, st)
  | _, _, _ => (false, st)

/-- Bytes of an ASCII string, for building concrete registration arguments. -/
def strBytes (s : String) : List Nat := s.data.map Char.toNat

/-- The state at process start: empty maps, zero counters. -/
def emptyUState : UState :=
  { statics := [], cache := [], dynamics := [], staticHits := 0, cacheHits := 0,
    dynamicHits := 0, totalRequests := 0 }

/-- A callback that always returns a null pointer. -/
def nullCb : UCallback := fun _ _ _ => none

/-- A callback that always returns the parsed envelope
`{"status": 200, "body": "ok"}`. -/
def okCb200 : UCallback :=
  fun _ _ _ => some (some (Json.obj [("status", Json.num 200), ("body", Json.str "ok")]))

/-- A route record built through the ultra compiler, for concrete dispatch
scenarios. -/
def uRouteOf (pattern handlerName : String) (ttl : Nat) : URoute :=
  { segs := (compileUltraPattern pattern.data).getD [], handlerName := handlerName,
    cacheTtl := if ttl > 0 then some ttl else none }

/-- Decomposition of a path pattern into literal runs and `{spec}` placeholders,
used to state which patterns the registration claims quantify over. -/
inductive UChunk where
  | lit (s : CL)
  | ph (spec : CL)
deriving DecidableEq

def chunkStr : UChunk → CL
  | UChunk.lit s => s
  | UChunk.ph spec => '{' :: spec ++ ['\x7d']

def chunksStr (cs : List UChunk) : CL := (cs.map chunkStr).flatten

def chunkRegex : UChunk → CL
  | UChunk.lit s => s
  | UChunk.ph spec => groupOf spec

def chunksRegex (cs : List UChunk) : CL := (cs.map chunkRegex).flatten

def phCount (cs : List UChunk) : Nat :=
  cs.countP (fun c => match c with | UChunk.ph _ => true | _ => false)

/-- Well-formedness of a chunk: literal text free of braces and `(` (plain path
text), placeholder specs made of identifier characters and colons. -/
def chunkWf : UChunk → Bool
  | UChunk.lit s => s.all (fun c => !(c == '{') && !(c == '\x7d') && !(c == '('))
  | UChunk.ph spec => spec.all (fun c => c.isAlphanum || c == '_' || c == ':')

/-
  Lemmas about extraction and validation (routing.rs).
-/

theorem extractAux_valid (types : String → Option ParamType) :
    ∀ (ns : List String) (vs : List CL) (l : List (String × CL)),
    extractAux types ns vs = some l →
    ∀ p ∈ l, ∀ t, types p.1 = some t → validate_param_type p.2 t = true := by
  intro ns
  induction ns with
  | nil =>
    intro vs l h p hp
    simp [extractAux] at h
    subst h
    simp at hp
  | cons n ns ih =>
    intro vs l h p hp t ht
    cases vs with
    | nil =>
      rw [extractAux] at h
      exact ih [] l h p hp t ht
    | cons v vs =>
      rw [extractAux] at h
      by_cases hok : (match types n with
          | some t => validate_param_type v t
          | none => true) = true
      · rw [if_pos hok] at h
        cases hrec : extractAux types ns vs with
        | none => rw [hrec] at h; simp at h
        | some l2 =>
          rw [hrec] at h
          simp only [Option.map_some', Option.some.injEq] at h
          subst h
          rcases List.mem_cons.mp hp with he | he
          · subst he
            rw [ht] at hok
            exact hok
          · exact ih vs l2 hrec p he t ht
      · rw [if_neg hok] at h
        simp at h

theorem extractAux_eq_zip (types : String → Option ParamType) :
    ∀ (ns : List String) (vs : List CL) (l : List (String × CL)),
    ns.length ≤ vs.length → extractAux types ns vs = some l → l = ns.zip vs := by
  intro ns
  induction ns with
  | nil =>
    intro vs l _ h
    simp [extractAux] at h
    simp [← h]
  | cons n ns ih =>
    intro vs l hlen h
    cases vs with
    | nil => simp at hlen
    | cons v vs =>
      rw [extractAux] at h
      by_cases hok : (match types n with
          | some t => validate_param_type v t
          | none => true) = true
      · rw [if_pos hok] at h
        cases hrec : extractAux types ns vs with
        | none => rw [hrec] at h; simp at h
        | some l2 =>
          rw [hrec] at h
          simp only [Option.map_some', Option.some.injEq] at h
          subst h
          have := ih vs l2 (by simpa using Nat.le_of_succ_le_succ hlen) hrec
          simp [this]
      · rw [if_neg hok] at h
        simp at h

theorem hmGet_zip_nodup : ∀ (ns : List String) (vs : List CL), ns.Nodup →
    ∀ n v, (n, v) ∈ ns.zip vs → hmGet (ns.zip vs) n = some v := by
  intro ns
  induction ns with
  | nil => intro vs _ n v h; simp at h
  | cons n0 ns ih =>
    intro vs hnd n v h
    cases vs with
    | nil => simp at h
    | cons v0 vs =>
      rw [List.nodup_cons] at hnd
      simp only [List.zip_cons_cons] at h ⊢
      rcases List.mem_cons.mp h with he | he
      · have hn : n = n0 := congrArg Prod.fst he
        have hv : v = v0 := congrArg Prod.snd he
        subst hn
        subst hv
        have hnone : hmGet (ns.zip vs) n = none := by
          apply hmGet_eq_none_of_not_mem
          intro hmem
          rcases List.mem_map.mp hmem with ⟨q, hq, hq1⟩
          have := (List.of_mem_zip hq).1
          rw [hq1] at this
          exact hnd.1 this
        rw [hmGet, hnone]
        simp
      · rw [hmGet, ih vs hnd.2 n v he]

theorem partsNames_len : ∀ ps : List RPart, (partsNames ps).length = capCount (partsToSegs ps) := by
  intro ps
  induction ps with
  | nil => simp [partsNames, partsToSegs, capCount]
  | cons p r ih =>
    cases p with
    | lit s => simp [partsNames, partsToSegs, capCount, List.countP_cons] at ih ⊢; exact ih
    | param n t => simp [partsNames, partsToSegs, capCount, List.countP_cons] at ih ⊢; exact ih

theorem subst_reconstruct : ∀ (ps : List RPart) (caps : List CL) (m : List (String × CL)),
    capCount (partsToSegs ps) = caps.length →
    (∀ n v, (n, v) ∈ (partsNames ps).zip caps → hmGet m n = some v) →
    substParts m ps = reconstruct (partsToSegs ps) caps := by
  intro ps
  induction ps with
  | nil => intro caps m _ _; simp [substParts, partsToSegs, reconstruct]
  | cons p r ih =>
    intro caps m hlen hmem
    cases p with
    | lit s =>
      simp only [substParts, partsToSegs, reconstruct]
      rw [ih caps m (by simpa [partsToSegs, capCount, List.countP_cons] using hlen)
        (by simpa [partsNames] using hmem)]
    | param n t =>
      cases caps with
      | nil => simp [partsToSegs, capCount, List.countP_cons] at hlen
      | cons v caps =>
        simp only [substParts, partsToSegs, reconstruct]
        have hv : hmGet m ((⟨n⟩ : String)) = some v := by
          apply hmem
          simp [partsNames]
        rw [hv]
        simp only [Option.getD_some]
        rw [ih caps m (by simpa [partsToSegs, capCount, List.countP_cons] using hlen)
          (by intro n2 v2 h2; exact hmem n2 v2 (by simp [partsNames]; right; exact h2))]

/-- C5: typed-parameter re-validation.  Whenever extraction over a compiled
pattern succeeds, every value in the returned parameter map satisfies the
`validate_param_type` predicate of its declared type (int: signed 64-bit
integer parse; float: float parse; uuid: 36 characters with four hyphens;
slug: alphanumerics and hyphens); any failing predicate turns the match into a
no-match.  Concretely, `/users/abc` against `/users/{id:int}` extracts
nothing. -/
theorem C5_typed_revalidation :
    (∀ (P X : String) (m : List (String × CL)) (n : String) (v : CL) (t : ParamType),
        extract_path_params (RoutePattern.compile P) X = some m →
        hmGet m n = some v →
        hmGet (RoutePattern.compile P).param_types n = some t →
        validate_param_type v t = true) ∧
    extract_path_params (RoutePattern.compile "/users/\x7bid:int\x7d") "/users/abc" = none := by
  constructor
  · intro P X m n v t hex hm ht
    rw [extract_path_params] at hex
    cases hms : matchSegs rClassOk (RoutePattern.compile P).segs X.data with
    | none => rw [hms] at hex; simp at hex
    | some caps =>
      rw [hms] at hex
      exact extractAux_valid _ _ _ _ hex (n, v) (hmGet_mem hm) t ht
  · decide

/-- Witness for C5 at `/users/{id:int}` on `/users/123`: the extracted value
`123` passes the integer re-validation. -/
theorem C5_typed_revalidation_witness :
    validate_param_type "123".data ParamType.integer = true :=
  C5_typed_revalidation.1 "/users/\x7bid:int\x7d" "/users/123" [("id", "123".data)]
    "id" "123".data ParamType.integer (by decide) (by decide) (by decide)

/-- C6 counterexample: with a duplicated parameter name the extracted map keeps
only the last capture, so substituting it back into the pattern does not
reproduce the path.  Pattern `/{a}/{a}` on path `/x/y` extracts `a = y`
(the HashMap insert of the second capture overwrites the first) and
substitution yields `/y/y`, not `/x/y`. -/
theorem C6_duplicate_name_counterexample :
    extract_path_params (RoutePattern.compile "/\x7ba\x7d/\x7ba\x7d") "/x/y" =
      some [("a", "x".data), ("a", "y".data)] ∧
    hmGet [("a", "x".data), ("a", "y".data)] "a" = some "y".data ∧
    substPattern "/\x7ba\x7d/\x7ba\x7d" [("a", "x".data), ("a", "y".data)] = "/y/y".data ∧
    "/y/y".data ≠ "/x/y".data := by
  decide

/-- C6 (amended): the extraction round-trip holds for every pattern whose
parameter names are distinct: if extraction of path `X` over the compiled
pattern succeeds with map `m`, substituting each placeholder of `P` by its
extracted value reproduces `X` exactly.  (With duplicate names the final
overwrite breaks it, see the counterexample.) -/
theorem C6_roundtrip_nodup :
    ∀ (P X : String) (m : List (String × CL)),
      (RoutePattern.compile P).param_names.Nodup →
      extract_path_params (RoutePattern.compile P) X = some m →
      substPattern P m = X.data := by
  intro P X m hnd hex
  rw [extract_path_params] at hex
  cases hms : matchSegs rClassOk (RoutePattern.compile P).segs X.data with
  | none => rw [hms] at hex; simp at hex
  | some caps =>
    rw [hms] at hex
    obtain ⟨hrec, hlen⟩ := matchSegs_sound rClassOk _ _ _ hms
    have hsegs : (RoutePattern.compile P).segs = partsToSegs (walkParts P.data) := rfl
    have hnames : (RoutePattern.compile P).param_names = partsNames (walkParts P.data) := rfl
    have hlen2 : (partsNames (walkParts P.data)).length ≤ caps.length := by
      rw [partsNames_len, ← hsegs, ← hlen]
    have hzip := extractAux_eq_zip _ _ _ _ hlen2 (by rw [← hnames]; exact hex)
    subst hzip
    rw [substPattern]
    rw [subst_reconstruct (walkParts P.data) caps _ (by rw [← hsegs, ← hlen])
      (fun n v hm => hmGet_zip_nodup _ caps (hnames ▸ hnd) n v (by rw [← hnames]; exact hm))]
    rw [← hsegs]
    exact hrec

/-- Witness for C6 (amended) at `/users/{id}` on `/users/7`. -/
theorem C6_roundtrip_nodup_witness :
    substPattern "/users/\x7bid\x7d" [("id", "7".data)] = "/users/7".data :=
  C6_roundtrip_nodup "/users/\x7bid\x7d" "/users/7" [("id", "7".data)] (by decide) (by decide)

/-
  Lemmas about the lib_ultimate dispatcher.
-/

theorem dynLoop_spec (cb : Option UCallback) (now : Nat) (method path : String) :
    ∀ (routes : List (String × URoute)) (o : DynOutcome),
    dynLoop cb now method path routes = some o →
    (o.cacheIns.isSome ↔ (o.status = 200 ∧ o.routeTtl.isSome)) ∧
    (∀ c, o.cacheIns = some c →
      c.body = o.body ∧ c.status = o.status ∧ c.headers = o.headers ∧ c.cachedAt = now ∧
        c.ttl = o.routeTtl.getD 0) := by
  intro routes
  induction routes with
  | nil => intro o h; simp [dynLoop] at h
  | cons e rest ih =>
    obtain ⟨k, r⟩ := e
    intro o h
    rw [dynLoop] at h
    cases hm : uMatch r.segs path.data with
    | none => rw [hm] at h; dsimp only at h; exact ih o h
    | some prs =>
      rw [hm] at h
      dsimp only at h
      cases hcb : callBridge cb method path (paramsJsonStr prs) with
      | error e => rw [hcb] at h; dsimp only at h; exact ih o h
      | ok val =>
        obtain ⟨b, s, hd⟩ := val
        rw [hcb] at h
        dsimp only at h
        simp only [Option.some.injEq] at h
        subst h
        by_cases hcond : s = 200 ∧ r.cacheTtl.isSome
        · constructor
          · simp [hcond]
          · intro c hc
            simp only [if_pos hcond] at hc
            simp only [Option.some.injEq] at hc
            subst hc
            exact ⟨rfl, rfl, rfl, rfl, rfl⟩
        · constructor
          · simp [hcond]
          · intro c hc
            simp [if_neg hcond] at hc

theorem dynLoop_nullCb (now : Nat) (method path : String) :
    ∀ routes, dynLoop (some nullCb) now method path routes = none := by
  intro routes
  induction routes with
  | nil => rfl
  | cons e rest ih =>
    obtain ⟨k, r⟩ := e
    rw [dynLoop]
    cases hm : uMatch r.segs path.data with
    | none => exact ih
    | some prs =>
      by_cases hnul :
          (containsNul method || containsNul path || containsNul (paramsJsonStr prs)) = true
      · simp only [callBridge, nullCb, hnul, if_true]
        exact ih
      · simp only [callBridge, nullCb, Bool.not_eq_true] at hnul ⊢
        rw [if_neg (by simp [hnul])]
        exact ih

theorem handler_static (cb : Option UCallback) (now : Nat) (method path : String) (st : UState)
    (sr : UStatic) (hs : lookupA st.statics (method ++ ":" ++ path) = some sr) :
    ultraFastHandler cb now method path st =
      ({ status := sr.status, body := sr.body, tier := "static", handlerName := none,
         requestId := st.totalRequests + 1, cacheAge := none },
       { st with totalRequests := st.totalRequests + 1, staticHits := st.staticHits + 1 }) := by
  simp only [ultraFastHandler, hs]

theorem handler_cache_fresh (cb : Option UCallback) (now : Nat) (method path : String)
    (st : UState) (c : UCached) (hs : lookupA st.statics (method ++ ":" ++ path) = none)
    (hc : lookupA st.cache (method ++ ":" ++ path) = some c)
    (hfresh : now - c.cachedAt < c.ttl) :
    ultraFastHandler cb now method path st =
      ({ status := c.status, body := c.body, tier := "cached", handlerName := none,
         requestId := st.totalRequests + 1, cacheAge := some (now - c.cachedAt) },
       { st with totalRequests := st.totalRequests + 1, cacheHits := st.cacheHits + 1 }) := by
  simp only [ultraFastHandler, hs, hc, hfresh, if_true]

theorem handler_cache_stale (cb : Option UCallback) (now : Nat) (method path : String)
    (st : UState) (c : UCached) (hs : lookupA st.statics (method ++ ":" ++ path) = none)
    (hc : lookupA st.cache (method ++ ":" ++ path) = some c)
    (hfresh : ¬ now - c.cachedAt < c.ttl) :
    ultraFastHandler cb now method path st =
      dynamicTier cb now method path (method ++ ":" ++ path)
        { st with totalRequests := st.totalRequests + 1,
                  cache := removeA st.cache (method ++ ":" ++ path) } := by
  simp only [ultraFastHandler, hs, hc, hfresh, if_false]

theorem handler_nocache (cb : Option UCallback) (now : Nat) (method path : String)
    (st : UState) (hs : lookupA st.statics (method ++ ":" ++ path) = none)
    (hc : lookupA st.cache (method ++ ":" ++ path) = none) :
    ultraFastHandler cb now method path st =
      dynamicTier cb now method path (method ++ ":" ++ path)
        { st with totalRequests := st.totalRequests + 1 } := by
  simp only [ultraFastHandler, hs, hc]

/-- C1: the dispatcher's dynamic tier is not scoped to the request's HTTP
method.  `add_dynamic_route` null-checks its `method` argument and then
discards it (the route table is keyed by the pattern alone), and the dynamic
loop of `ultra_fast_handler` never compares methods; a route registered for
POST is selected, and its handler invoked, by a GET request.  The claim says
such a route must never be a candidate. -/
theorem C1_method_not_scoped :
    (addDynamicRoute (some (strBytes "POST")) (some (strBytes "/users/\x7bid\x7d"))
        (some (strBytes "get_user")) 0 emptyUState).1 = true ∧
    (ultraFastHandler (some okCb200) 5 "GET" "/users/42"
        (addDynamicRoute (some (strBytes "POST")) (some (strBytes "/users/\x7bid\x7d"))
          (some (strBytes "get_user")) 0 emptyUState).2).1.tier = "dynamic" ∧
    (ultraFastHandler (some okCb200) 5 "GET" "/users/42"
        (addDynamicRoute (some (strBytes "POST")) (some (strBytes "/users/\x7bid\x7d"))
          (some (strBytes "get_user")) 0 emptyUState).2).1.handlerName = some "get_user" := by
  decide

/-- C2 counterexample: the claim pins the TTL boundary instant `T' = T + t` as
a cache miss, but lib.rs's `CachedResponse::is_expired` is
`now > created_at + ttl_seconds`, so its cache tier still serves the entry at
the boundary (inserted at 100 with TTL 60, dispatch at 160 is a hit even
though `T' − T < t` fails). -/
theorem C2_boundary_counterexample :
    rsCacheServes ⟨"b", "application/json", 200, 100, 60⟩ 160 = true ∧
    ¬ (160 - 100 < 60) := by
  decide

/-- C2 (amended): in lib_ultimate's dispatcher the claim holds as stated: with
the composed key absent from the static store and present in the TTL cache,
the dispatch serves tier `cached` iff `now − cached_at < ttl`; otherwise the
entry is removed (any entry found under the key afterwards was freshly
inserted at `now` by the dynamic tier) and the request falls through to the
dynamic tier (tier `dynamic` or `404`).  In lib.rs's variant the boundary
instant is instead still a hit (see the counterexample). -/
theorem C2_ultra_ttl_freshness :
    ∀ (cb : Option UCallback) (now : Nat) (method path : String) (st : UState) (c : UCached),
      lookupA st.statics (method ++ ":" ++ path) = none →
      lookupA st.cache (method ++ ":" ++ path) = some c →
      (((ultraFastHandler cb now method path st).1.tier = "cached") ↔
        now - c.cachedAt < c.ttl) ∧
      (¬ now - c.cachedAt < c.ttl →
        ((ultraFastHandler cb now method path st).1.tier = "dynamic" ∨
         (ultraFastHandler cb now method path st).1.tier = "404") ∧
        (lookupA (ultraFastHandler cb now method path st).2.cache (method ++ ":" ++ path) =
            none ∨
         ∃ c2, lookupA (ultraFastHandler cb now method path st).2.cache
            (method ++ ":" ++ path) = some c2 ∧ c2.cachedAt = now)) := by
  intro cb now method path st c hs hc
  by_cases hfresh : now - c.cachedAt < c.ttl
  · rw [handler_cache_fresh cb now method path st c hs hc hfresh]
    constructor
    · simp [hfresh]
    · intro hcon
      exact absurd hfresh hcon
  · rw [handler_cache_stale cb now method path st c hs hc hfresh]
    rw [dynamicTier]
    dsimp only
    cases hdl : dynLoop cb now method path st.dynamics with
    | none =>
      dsimp only
      refine ⟨⟨fun habs => absurd habs (by decide), fun hf => absurd hf hfresh⟩,
        fun _ => ⟨Or.inr rfl, Or.inl ?_⟩⟩
      exact lookupA_removeA_self st.cache (method ++ ":" ++ path)
    | some o =>
      dsimp only
      cases hins : o.cacheIns with
      | none =>
        dsimp only
        refine ⟨⟨fun habs => absurd habs (by decide), fun hf => absurd hf hfresh⟩,
          fun _ => ⟨Or.inl rfl, Or.inl ?_⟩⟩
        exact lookupA_removeA_self st.cache (method ++ ":" ++ path)
      | some c2 =>
        dsimp only
        refine ⟨⟨fun habs => absurd habs (by decide), fun hf => absurd hf hfresh⟩,
          fun _ => ⟨Or.inl rfl, Or.inr ⟨c2, ?_, ?_⟩⟩⟩
        · exact lookupA_insertA_self _ _ _
        · exact ((dynLoop_spec cb now method path st.dynamics o hdl).2 c2 hins).2.2.2.1

/-- Witness for C2 (amended): a fresh hit three units after insertion with TTL
ten is served from the cache. -/
theorem C2_ultra_ttl_freshness_witness :
    ((ultraFastHandler none 3 "GET" "/a"
        ({ emptyUState with cache := [("GET:/a", (⟨"b", 200, [], 0, 10⟩ : UCached))] })).1.tier =
      "cached") ↔ 3 - 0 < 10 :=
  (C2_ultra_ttl_freshness none 3 "GET" "/a"
    ({ emptyUState with cache := [("GET:/a", (⟨"b", 200, [], 0, 10⟩ : UCached))] })
    (⟨"b", 200, [], 0, 10⟩ : UCached)
    (by decide) (by decide)).1

/-- C3: cache population.  In the dynamic tier an insertion into the TTL cache
happens iff the bridge returned a well-formed envelope whose (parsed) status is
exactly 200 and the matched route was registered with `cache_ttl_seconds > 0`;
the inserted entry carries the returned body/status/headers and the insertion
time; it is stored under the composed key `METHOD:path`; and a successful
registration stores a TTL iff the requested seconds were positive. -/
theorem C3_cache_population :
    (∀ (cb : Option UCallback) (now : Nat) (method path : String)
        (routes : List (String × URoute)) (o : DynOutcome),
        dynLoop cb now method path routes = some o →
        (o.cacheIns.isSome ↔ (o.status = 200 ∧ o.routeTtl.isSome)) ∧
        (∀ c, o.cacheIns = some c →
          c.body = o.body ∧ c.status = o.status ∧ c.headers = o.headers ∧ c.cachedAt = now)) ∧
    (∀ (cb : Option UCallback) (now : Nat) (method path : String) (st : UState),
        lookupA st.statics (method ++ ":" ++ path) = none →
        lookupA st.cache (method ++ ":" ++ path) = none →
        (ultraFastHandler cb now method path st).2.cache =
          (match dynLoop cb now method path st.dynamics with
           | some o =>
             (match o.cacheIns with
              | some c => insertA st.cache (method ++ ":" ++ path) c
              | none => st.cache)
           | none => st.cache)) ∧
    (∀ (mb pb hb : List Nat) (ttl : Nat) (st st2 : UState),
        addDynamicRoute (some mb) (some pb) (some hb) ttl st = (true, st2) →
        ∃ r, lookupA st2.dynamics ((⟨utf8LossyDecode pb⟩ : String)) = some r ∧
          (r.cacheTtl.isSome ↔ 0 < ttl)) := by
  refine ⟨?_, ?_, ?_⟩
  · intro cb now method path routes o h
    obtain ⟨h1, h2⟩ := dynLoop_spec cb now method path routes o h
    exact ⟨h1, fun c hc => ⟨(h2 c hc).1, (h2 c hc).2.1, (h2 c hc).2.2.1, (h2 c hc).2.2.2.1⟩⟩
  · intro cb now method path st hs hc
    rw [handler_nocache cb now method path st hs hc]
    rw [dynamicTier]
    dsimp only
    cases hdl : dynLoop cb now method path st.dynamics with
    | none => rfl
    | some o =>
      dsimp only
      cases hins : o.cacheIns with
      | none => rfl
      | some c2 => rfl
  · intro mb pb hb ttl st st2 h
    rw [addDynamicRoute] at h
    cases hcp : compileUltraPattern (utf8LossyDecode pb) with
    | none =>
      rw [hcp] at h
      dsimp only at h
      exact absurd (congrArg Prod.fst h) (by simp)
    | some segs =>
      rw [hcp] at h
      dsimp only at h
      have h2 := congrArg Prod.snd h
      dsimp only at h2
      subst h2
      refine ⟨_, lookupA_insertA_self _ _ _, ?_⟩
      by_cases ht : 0 < ttl
      · simp [ht]
      · simp [ht]

/-- Witness for C3 at a concrete registration: a route registered with TTL 60
is stored with a cache TTL. -/
theorem C3_cache_population_witness :
    ∃ r, lookupA ((addDynamicRoute (some (strBytes "GET"))
          (some (strBytes "/users/\x7bid\x7d")) (some (strBytes "get_user")) 60
          emptyUState).2).dynamics
        ((⟨utf8LossyDecode (strBytes "/users/\x7bid\x7d")⟩ : String)) = some r ∧
      (r.cacheTtl.isSome ↔ 0 < 60) :=
  C3_cache_population.2.2 (strBytes "GET") (strBytes "/users/\x7bid\x7d")
    (strBytes "get_user") 60 emptyUState
    ((addDynamicRoute (some (strBytes "GET")) (some (strBytes "/users/\x7bid\x7d"))
      (some (strBytes "get_user")) 60 emptyUState).2) (by decide)

/-- C4 counterexample: selection among several matching dynamic routes depends
on the DashMap's iteration order, which is not tied to registration order.
The two tables below hold the same registered routes (they are permutations of
each other); registering the slug route first and the id route second, the
claim requires the slug route to win on `/items/42` (both match), yet under
the swapped enumeration the dispatcher returns the id route's handler. -/
theorem C4_order_counterexample :
    List.Perm
      [("/items/\x7bslug\x7d", uRouteOf "/items/\x7bslug\x7d" "handle_slug" 0),
       ("/items/\x7bid\x7d", uRouteOf "/items/\x7bid\x7d" "handle_id" 0)]
      [("/items/\x7bid\x7d", uRouteOf "/items/\x7bid\x7d" "handle_id" 0),
       ("/items/\x7bslug\x7d", uRouteOf "/items/\x7bslug\x7d" "handle_slug" 0)] ∧
    (uMatch (uRouteOf "/items/\x7bslug\x7d" "handle_slug" 0).segs "/items/42".data).isSome =
      true ∧
    (uMatch (uRouteOf "/items/\x7bid\x7d" "handle_id" 0).segs "/items/42".data).isSome =
      true ∧
    (dynLoop (some okCb200) 0 "GET" "/items/42"
        [("/items/\x7bid\x7d", uRouteOf "/items/\x7bid\x7d" "handle_id" 0),
         ("/items/\x7bslug\x7d", uRouteOf "/items/\x7bslug\x7d" "handle_slug" 0)]).map
      DynOutcome.handlerName = some "handle_id" ∧
    "handle_id" ≠ "handle_slug" := by
  constructor
  · exact List.Perm.swap _ _ _
  · decide

/-- C4 (amended): what the dispatcher guarantees is first-match-wins over the
map's iteration order: routes enumerated before the winner that do not match
are skipped, and the first enumerated route that matches and whose bridge call
succeeds produces the response.  Which route that is depends on the
enumeration, not on registration order. -/
theorem C4_first_match_in_iteration_order :
    (∀ (cb : Option UCallback) (now : Nat) (method path : String)
        (pre rest : List (String × URoute)),
        (∀ q ∈ pre, uMatch q.2.segs path.data = none) →
        dynLoop cb now method path (pre ++ rest) = dynLoop cb now method path rest) ∧
    (∀ (cb : Option UCallback) (now : Nat) (method path kp : String) (r : URoute)
        (rest : List (String × URoute)) (prs : List (String × CL)) (body : String)
        (status : Nat) (hdrs : List (String × String)),
        uMatch r.segs path.data = some prs →
        callBridge cb method path (paramsJsonStr prs) = Except.ok (body, status, hdrs) →
        dynLoop cb now method path ((kp, r) :: rest) =
          some { handlerName := r.handlerName, status := status, body := body,
                 headers := hdrs, routeTtl := r.cacheTtl,
                 cacheIns :=
                   if status = 200 ∧ r.cacheTtl.isSome then
                     some { body := body, status := status, headers := hdrs, cachedAt := now,
                            ttl := r.cacheTtl.getD 0 }
                   else none }) := by
  constructor
  · intro cb now method path pre rest hpre
    induction pre with
    | nil => rfl
    | cons q pre ih =>
      obtain ⟨k, r⟩ := q
      have hq : uMatch r.segs path.data = none := hpre (k, r) (List.mem_cons_self _ _)
      rw [List.cons_append, dynLoop, hq]
      exact ih (fun q hq2 => hpre q (List.mem_cons_of_mem _ hq2))
  · intro cb now method path kp r rest prs body status hdrs hm hcb
    rw [dynLoop, hm]
    dsimp only
    rw [hcb]

/-- Witness for C4 (amended): a single matching route at the head of the
enumeration wins. -/
theorem C4_first_match_witness :
    dynLoop (some okCb200) 0 "GET" "/items/42"
      [("/items/\x7bslug\x7d", uRouteOf "/items/\x7bslug\x7d" "handle_slug" 0)] =
      some { handlerName := "handle_slug", status := 200, body := "ok",
             headers := [("content-type", "application/json"),
                         ("x-sufast-engine", "rust-python-ffi")],
             routeTtl := none, cacheIns := none } := by
  have h := C4_first_match_in_iteration_order.2 (some okCb200) 0 "GET" "/items/42"
    "/items/\x7bslug\x7d" (uRouteOf "/items/\x7bslug\x7d" "handle_slug" 0) []
    [("slug", "42".data)] "ok" 200
    [("content-type", "application/json"), ("x-sufast-engine", "rust-python-ffi")]
    (by decide) (by rfl)
  rw [h]
  decide

/-- C7: with the registered callback returning a null pointer on every call,
any request whose composed key misses the static store and the cache ends at
the 404 fallback, the TTL cache is left exactly as it was, and the dynamic and
total counters are each incremented by exactly one. -/
theorem C7_null_callback_fallback :
    ∀ (now : Nat) (method path : String) (st : UState),
      lookupA st.statics (method ++ ":" ++ path) = none →
      lookupA st.cache (method ++ ":" ++ path) = none →
      (ultraFastHandler (some nullCb) now method path st).1.tier = "404" ∧
      (ultraFastHandler (some nullCb) now method path st).1.status = 404 ∧
      (ultraFastHandler (some nullCb) now method path st).2.cache = st.cache ∧
      (ultraFastHandler (some nullCb) now method path st).2.dynamicHits =
        st.dynamicHits + 1 ∧
      (ultraFastHandler (some nullCb) now method path st).2.totalRequests =
        st.totalRequests + 1 := by
  intro now method path st hs hc
  rw [handler_nocache (some nullCb) now method path st hs hc]
  rw [dynamicTier]
  rw [dynLoop_nullCb]
  exact ⟨rfl, rfl, rfl, rfl, rfl⟩

/-- Witness for C7: a registered dynamic route whose callback returns null
falls through to 404 with the dynamic counter incremented. -/
theorem C7_null_callback_fallback_witness :
    (ultraFastHandler (some nullCb) 0 "GET" "/users/42"
        ((addDynamicRoute (some (strBytes "GET")) (some (strBytes "/users/\x7bid\x7d"))
          (some (strBytes "get_user")) 60 emptyUState).2)).1.tier = "404" ∧
    (ultraFastHandler (some nullCb) 0 "GET" "/users/42"
        ((addDynamicRoute (some (strBytes "GET")) (some (strBytes "/users/\x7bid\x7d"))
          (some (strBytes "get_user")) 60 emptyUState).2)).1.status = 404 ∧
    (ultraFastHandler (some nullCb) 0 "GET" "/users/42"
        ((addDynamicRoute (some (strBytes "GET")) (some (strBytes "/users/\x7bid\x7d"))
          (some (strBytes "get_user")) 60 emptyUState).2)).2.cache =
      ((addDynamicRoute (some (strBytes "GET")) (some (strBytes "/users/\x7bid\x7d"))
          (some (strBytes "get_user")) 60 emptyUState).2).cache ∧
    (ultraFastHandler (some nullCb) 0 "GET" "/users/42"
        ((addDynamicRoute (some (strBytes "GET")) (some (strBytes "/users/\x7bid\x7d"))
          (some (strBytes "get_user")) 60 emptyUState).2)).2.dynamicHits =
      ((addDynamicRoute (some (strBytes "GET")) (some (strBytes "/users/\x7bid\x7d"))
          (some (strBytes "get_user")) 60 emptyUState).2).dynamicHits + 1 ∧
    (ultraFastHandler (some nullCb) 0 "GET" "/users/42"
        ((addDynamicRoute (some (strBytes "GET")) (some (strBytes "/users/\x7bid\x7d"))
          (some (strBytes "get_user")) 60 emptyUState).2)).2.totalRequests =
      ((addDynamicRoute (some (strBytes "GET")) (some (strBytes "/users/\x7bid\x7d"))
          (some (strBytes "get_user")) 60 emptyUState).2).totalRequests + 1 :=
  C7_null_callback_fallback 0 "GET" "/users/42"
    ((addDynamicRoute (some (strBytes "GET")) (some (strBytes "/users/\x7bid\x7d"))
      (some (strBytes "get_user")) 60 emptyUState).2) (by decide) (by decide)

/-- C9 counterexample: there is no 404 counter; the dynamic counter is
incremented for every request that reaches tier 3, including requests answered
by the 404 fallback.  A single request on the empty state yields tier `404`
with counters total 1, static 0, cache 0, dynamic 1; counting the request's
404 outcome as well, `static + cache + dynamic + 404 ≠ total`. -/
theorem C9_counter_counterexample :
    (ultraFastHandler none 0 "GET" "/nope" emptyUState).1.tier = "404" ∧
    (ultraFastHandler none 0 "GET" "/nope" emptyUState).2.staticHits = 0 ∧
    (ultraFastHandler none 0 "GET" "/nope" emptyUState).2.cacheHits = 0 ∧
    (ultraFastHandler none 0 "GET" "/nope" emptyUState).2.dynamicHits = 1 ∧
    (ultraFastHandler none 0 "GET" "/nope" emptyUState).2.totalRequests = 1 ∧
    (ultraFastHandler none 0 "GET" "/nope" emptyUState).2.staticHits +
      (ultraFastHandler none 0 "GET" "/nope" emptyUState).2.cacheHits +
      (ultraFastHandler none 0 "GET" "/nope" emptyUState).2.dynamicHits + 1 ≠
      (ultraFastHandler none 0 "GET" "/nope" emptyUState).2.totalRequests := by
  decide

/-- C9 (amended): each request increments the total counter by exactly 1 and
exactly one of the static/cache/dynamic counters by exactly 1 (the dynamic
counter also counts requests that end in the 404 fallback, and there is no
404 counter), so `static + cache + dynamic = total` is preserved and every
counter is monotonically non-decreasing. -/
theorem C9_counter_accounting :
    ∀ (cb : Option UCallback) (now : Nat) (method path : String) (st : UState),
      (ultraFastHandler cb now method path st).2.totalRequests = st.totalRequests + 1 ∧
      (((ultraFastHandler cb now method path st).2.staticHits = st.staticHits + 1 ∧
        (ultraFastHandler cb now method path st).2.cacheHits = st.cacheHits ∧
        (ultraFastHandler cb now method path st).2.dynamicHits = st.dynamicHits) ∨
       ((ultraFastHandler cb now method path st).2.staticHits = st.staticHits ∧
        (ultraFastHandler cb now method path st).2.cacheHits = st.cacheHits + 1 ∧
        (ultraFastHandler cb now method path st).2.dynamicHits = st.dynamicHits) ∨
       ((ultraFastHandler cb now method path st).2.staticHits = st.staticHits ∧
        (ultraFastHandler cb now method path st).2.cacheHits = st.cacheHits ∧
        (ultraFastHandler cb now method path st).2.dynamicHits = st.dynamicHits + 1)) ∧
      (ultraFastHandler cb now method path st).2.staticHits +
        (ultraFastHandler cb now method path st).2.cacheHits +
        (ultraFastHandler cb now method path st).2.dynamicHits =
        st.staticHits + st.cacheHits + st.dynamicHits + 1 ∧
      st.staticHits ≤ (ultraFastHandler cb now method path st).2.staticHits ∧
      st.cacheHits ≤ (ultraFastHandler cb now method path st).2.cacheHits ∧
      st.dynamicHits ≤ (ultraFastHandler cb now method path st).2.dynamicHits ∧
      st.totalRequests ≤ (ultraFastHandler cb now method path st).2.totalRequests := by
  intro cb now method path st
  cases hs : lookupA st.statics (method ++ ":" ++ path) with
  | some sr =>
    rw [handler_static cb now method path st sr hs]
    dsimp only
    refine ⟨rfl, Or.inl ⟨rfl, rfl, rfl⟩, by omega, by omega, by omega, by omega, by omega⟩
  | none =>
    have hdyn : ∀ st1 : UState,
        st1.staticHits = st.staticHits → st1.cacheHits = st.cacheHits →
        st1.dynamicHits = st.dynamicHits → st1.totalRequests = st.totalRequests + 1 →
        (dynamicTier cb now method path (method ++ ":" ++ path) st1).2.totalRequests =
            st.totalRequests + 1 ∧
          ((dynamicTier cb now method path (method ++ ":" ++ path) st1).2.staticHits =
              st.staticHits ∧
            (dynamicTier cb now method path (method ++ ":" ++ path) st1).2.cacheHits =
              st.cacheHits ∧
            (dynamicTier cb now method path (method ++ ":" ++ path) st1).2.dynamicHits =
              st.dynamicHits + 1) := by
      intro st1 h1 h2 h3 h4
      rw [dynamicTier]
      dsimp only
      cases hdl : dynLoop cb now method path st1.dynamics with
      | none => exact ⟨h4, h1, h2, by rw [← h3]⟩
      | some o =>
        dsimp only
        cases hins : o.cacheIns with
        | none => exact ⟨h4, h1, h2, by rw [← h3]⟩
        | some c2 => exact ⟨h4, h1, h2, by rw [← h3]⟩
    cases hc : lookupA st.cache (method ++ ":" ++ path) with
    | some c =>
      by_cases hfresh : now - c.cachedAt < c.ttl
      · rw [handler_cache_fresh cb now method path st c hs hc hfresh]
        dsimp only
        refine ⟨rfl, Or.inr (Or.inl ⟨rfl, rfl, rfl⟩), by omega, by omega, by omega, by omega,
          by omega⟩
      · rw [handler_cache_stale cb now method path st c hs hc hfresh]
        obtain ⟨h1, h2, h3, h4⟩ := hdyn
          ({ st with totalRequests := st.totalRequests + 1,
                     cache := removeA st.cache (method ++ ":" ++ path) }) rfl rfl rfl rfl
        refine ⟨h1, Or.inr (Or.inr ⟨h2, h3, h4⟩), by omega, by omega, by omega, by omega,
          by omega⟩
    | none =>
      rw [handler_nocache cb now method path st hs hc]
      obtain ⟨h1, h2, h3, h4⟩ := hdyn
        ({ st with totalRequests := st.totalRequests + 1 }) rfl rfl rfl rfl
      refine ⟨h1, Or.inr (Or.inr ⟨h2, h3, h4⟩), by omega, by omega, by omega, by omega,
        by omega⟩

/-- C8 counterexample: a non-UTF-8 argument does not make registration fail.
`to_string_lossy` never errors; with handler-name bytes `[0xFF]` the call
still returns true and commits a route (the byte decodes to U+FFFD). -/
theorem C8_non_utf8_counterexample :
    (addDynamicRoute (some (strBytes "GET")) (some (strBytes "/users/\x7bid\x7d"))
        (some [255]) 0 emptyUState).1 = true ∧
    (addDynamicRoute (some (strBytes "GET")) (some (strBytes "/users/\x7bid\x7d"))
        (some [255]) 0 emptyUState).2 ≠ emptyUState ∧
    utf8LossyDecode [255] = [replChar] := by
  decide

/-- C8 (amended): registration error atomicity holds for null-pointer
arguments and for patterns whose compilation fails (unparseable pattern,
duplicate parameter name): the call returns false and the state is exactly
unchanged.  Non-UTF-8 arguments, however, are decoded lossily and the call
proceeds (see the counterexample). -/
theorem C8_registration_atomicity :
    ∀ (mb pb hb : Option (List Nat)) (ttl : Nat) (st : UState),
      (mb = none ∨ pb = none ∨ hb = none ∨
        (∃ p, pb = some p ∧ compileUltraPattern (utf8LossyDecode p) = none)) →
      addDynamicRoute mb pb hb ttl st = (false, st) := by
  intro mb pb hb ttl st h
  rcases h with h | h | h | ⟨p, hp, hcp⟩
  · subst h
    cases pb <;> cases hb <;> rfl
  · subst h
    cases mb <;> cases hb <;> rfl
  · subst h
    cases mb <;> cases pb <;> rfl
  · subst hp
    cases mb with
    | none => rfl
    | some mbb =>
      cases hb with
      | none => rfl
      | some hbb =>
        rw [addDynamicRoute]
        dsimp only
        rw [hcp]

/-- Witness for C8 (amended): a pattern with a duplicated parameter name (the
regex crate rejects duplicate capture-group names) is refused atomically. -/
theorem C8_registration_atomicity_witness :
    addDynamicRoute (some (strBytes "GET")) (some (strBytes "/a/\x7bx\x7d/\x7bx\x7d"))
        (some (strBytes "h")) 5 emptyUState = (false, emptyUState) :=
  C8_registration_atomicity (some (strBytes "GET")) (some (strBytes "/a/\x7bx\x7d/\x7bx\x7d"))
    (some (strBytes "h")) 5 emptyUState
    (Or.inr (Or.inr (Or.inr ⟨strBytes "/a/\x7bx\x7d/\x7bx\x7d", rfl, by decide⟩)))

/-
  Lemmas for C10: the rewrite loop on well-formed chunked patterns, and the
  group-name validation of the produced regex text.
-/

theorem ultraRewriteAux_append (f : Nat) : ∀ (a b : CL), '{' ∉ a →
    ultraRewriteAux f (a ++ b) = a ++ ultraRewriteAux f b := by
  induction f with
  | zero => intro a b _; rfl
  | succ f ih =>
    intro a b ha
    cases hb : splitFirst '{' b with
    | none =>
      have h1 : splitFirst '{' (a ++ b) = none := by
        rw [splitFirst_append_left b ha, hb]
        rfl
      simp only [ultraRewriteAux, h1, hb]
    | some pr =>
      obtain ⟨p, sfx⟩ := pr
      have h1 : splitFirst '{' (a ++ b) = some (a ++ p, sfx) := by
        rw [splitFirst_append_left b ha, hb]
        rfl
      cases hs : splitFirst '}' sfx with
      | none => simp only [ultraRewriteAux, h1, hb, hs]
      | some pr2 =>
        obtain ⟨spec, rest⟩ := pr2
        simp only [ultraRewriteAux, h1, hb, hs]
        rw [show (a ++ p) ++ groupOf spec ++ rest = a ++ (p ++ groupOf spec ++ rest) by
          simp [List.append_assoc]]
        exact ih _ _ ha

theorem lit_wf_not_mem {s : CL} (h : chunkWf (UChunk.lit s) = true) {d : Char}
    (hd : (!(d == '{') && !(d == '\x7d') && !(d == '(')) = false) : d ∉ s := by
  intro hm
  rw [chunkWf] at h
  have := List.all_eq_true.mp h d hm
  rw [hd] at this
  exact Bool.false_ne_true this

theorem spec_wf_not_mem {spec : CL} (h : chunkWf (UChunk.ph spec) = true) {d : Char}
    (hd : (d.isAlphanum || d == '_' || d == ':') = false) : d ∉ spec := by
  intro hm
  rw [chunkWf] at h
  have := List.all_eq_true.mp h d hm
  rw [hd] at this
  exact Bool.false_ne_true this

theorem brace_not_mem_groupOf {spec : CL} (h1 : '{' ∉ spec) : '{' ∉ groupOf spec := by
  intro hm
  rw [groupOf] at hm
  simp only [List.mem_cons, List.mem_append, List.not_mem_nil, or_false] at hm
  rcases hm with h | h | h | h | hm2
  · exact absurd h (by decide)
  · exact absurd h (by decide)
  · exact absurd h (by decide)
  · exact absurd h (by decide)
  · rcases hm2 with hsp | h | h | h | h | h | h | h
    · exact h1 hsp
    · exact absurd h (by decide)
    · exact absurd h (by decide)
    · exact absurd h (by decide)
    · exact absurd h (by decide)
    · exact absurd h (by decide)
    · exact absurd h (by decide)
    · exact absurd h (by decide)

theorem chunksStr_count : ∀ (chunks : List UChunk), chunks.all chunkWf = true →
    (chunksStr chunks).countP (fun c => c = '\x7d') = phCount chunks := by
  intro chunks
  induction chunks with
  | nil => intro _; rfl
  | cons ch rest ih =>
    intro hwf
    rw [List.all_cons, Bool.and_eq_true] at hwf
    have hstr : chunksStr (ch :: rest) = chunkStr ch ++ chunksStr rest := by
      simp [chunksStr]
    rw [hstr, List.countP_append, ih hwf.2]
    cases ch with
    | lit s =>
      have hz : s.countP (fun c => c = '\x7d') = 0 := by
        rw [List.countP_eq_zero]
        intro a ha
        have hns := lit_wf_not_mem hwf.1 (d := '\x7d') (by decide)
        simp only [decide_eq_true_eq]
        intro he
        exact hns (he ▸ ha)
      rw [chunkStr, hz, phCount, phCount, List.countP_cons]
      simp
    | ph spec =>
      have hz : spec.countP (fun c => c = '\x7d') = 0 := by
        rw [List.countP_eq_zero]
        intro a ha
        have hns := spec_wf_not_mem hwf.1 (d := '\x7d') (by decide)
        simp only [decide_eq_true_eq]
        intro he
        exact hns (he ▸ ha)
      rw [chunkStr, phCount, phCount, List.countP_cons]
      simp [List.countP_cons, hz]
      omega

theorem chunks_rewrite : ∀ (chunks : List UChunk) (f : Nat),
    chunks.all chunkWf = true → phCount chunks + 1 ≤ f →
    ultraRewriteAux f (chunksStr chunks) = chunksRegex chunks := by
  intro chunks
  induction chunks with
  | nil =>
    intro f _ _
    cases f with
    | zero => rfl
    | succ f => rfl
  | cons ch rest ih =>
    intro f hwf hf
    rw [List.all_cons, Bool.and_eq_true] at hwf
    cases ch with
    | lit s =>
      have hstr : chunksStr (UChunk.lit s :: rest) = s ++ chunksStr rest := by
        simp [chunksStr, chunkStr]
      have hrx : chunksRegex (UChunk.lit s :: rest) = s ++ chunksRegex rest := by
        simp [chunksRegex, chunkRegex]
      have hnb : '{' ∉ s := lit_wf_not_mem hwf.1 (by decide)
      have hcnt : phCount (UChunk.lit s :: rest) = phCount rest := by
        simp [phCount, List.countP_cons]
      rw [hstr, hrx, ultraRewriteAux_append f s _ hnb,
        ih f hwf.2 (by rw [hcnt] at hf; exact hf)]
    | ph spec =>
      have hcnt : phCount (UChunk.ph spec :: rest) = phCount rest + 1 := by
        simp [phCount, List.countP_cons]
      cases f with
      | zero => omega
      | succ f =>
        have hstr : chunksStr (UChunk.ph spec :: rest) =
            '{' :: (spec ++ '\x7d' :: chunksStr rest) := by
          simp [chunksStr, chunkStr]
        have hrx : chunksRegex (UChunk.ph spec :: rest) = groupOf spec ++ chunksRegex rest := by
          simp [chunksRegex, chunkRegex]
        have hnb : '\x7d' ∉ spec := spec_wf_not_mem hwf.1 (by decide)
        have hsplit : splitFirst '\x7d' (spec ++ '\x7d' :: chunksStr rest) =
            some (spec, chunksStr rest) := splitFirst_append_cons _ hnb
        rw [hstr]
        simp only [ultraRewriteAux, splitFirst_cons_self, hsplit]
        have hgn : '{' ∉ groupOf spec :=
          brace_not_mem_groupOf (spec_wf_not_mem hwf.1 (by decide))
        rw [List.nil_append, ultraRewriteAux_append f _ _ hgn,
          ih f hwf.2 (by omega), hrx]

theorem grpOpen_not_prefix {c : Char} (hc : c ≠ '(') (x : CL) :
    grpOpen.isPrefixOf (c :: x) = false := by
  rw [grpOpen]
  simp only [List.isPrefixOf]
  rw [show (('(' : Char) == c) = false from by
    cases hbe : ('(' : Char) == c with
    | false => rfl
    | true => exact absurd (beq_iff_eq.mp hbe).symm hc]
  rfl

theorem parse_lit_chain : ∀ (s b : CL), (∀ c ∈ s, c ≠ '(') →
    (∀ g, parseURegexAux g b = none) → ∀ f, parseURegexAux f (s ++ b) = none := by
  intro s
  induction s with
  | nil => intro b _ hb f; simpa using hb f
  | cons c s ih =>
    intro b hs hb f
    cases f with
    | zero => rfl
    | succ f =>
      have hpf := grpOpen_not_prefix (hs c (List.mem_cons_self _ _)) (s ++ b)
      rw [show ((c :: s) ++ b) = c :: (s ++ b) from rfl]
      simp only [parseURegexAux, hpf, Bool.false_eq_true, if_false]
      rw [ih b (fun d hd => hs d (List.mem_cons_of_mem _ hd)) hb f]
      rfl

theorem parse_group_step : ∀ (spec Q : CL) (f : Nat), '>' ∉ spec →
    parseURegexAux (f + 1) (groupOf spec ++ Q) =
      (if groupNameOk spec = true then
        (parseURegexAux f Q).map (fun segs => GSeg.cap ((⟨spec⟩ : String)) :: segs)
      else none) := by
  intro spec Q f hgt
  have hform : groupOf spec ++ Q = '(' :: '?' :: 'P' :: '<' :: (spec ++ '>' :: (capTailU ++ Q)) := by
    simp [groupOf, capTailU]
  rw [hform, parseURegexAux]
  rw [if_pos (show grpOpen.isPrefixOf
      ('(' :: '?' :: 'P' :: '<' :: (spec ++ '>' :: (capTailU ++ Q))) = true by
    rw [grpOpen]
    simp [List.isPrefixOf])]
  have hdrop : (('(' :: '?' :: 'P' :: '<' :: (spec ++ '>' :: (capTailU ++ Q))) : CL).drop 4 =
      spec ++ '>' :: (capTailU ++ Q) := rfl
  rw [hdrop, splitFirst_append_cons _ hgt]
  try dsimp only
  by_cases hok : groupNameOk spec = true
  · rw [if_pos hok, if_pos hok]
    rw [if_pos (show capTailU.isPrefixOf (capTailU ++ Q) = true from
      List.isPrefixOf_iff_prefix.mpr (List.prefix_append _ _))]
    rw [show (6 : Nat) = capTailU.length from rfl, List.drop_left]
  · rw [if_neg hok, if_neg hok]

theorem parse_chunks_bad : ∀ (chunks : List UChunk), chunks.all chunkWf = true →
    (∃ spec, UChunk.ph spec ∈ chunks ∧ groupNameOk spec = false) →
    ∀ f, parseURegexAux f (chunksRegex chunks) = none := by
  intro chunks
  induction chunks with
  | nil =>
    intro _ hbad f
    obtain ⟨spec, hmem, _⟩ := hbad
    simp at hmem
  | cons ch rest ih =>
    intro hwf hbad f
    obtain ⟨spec, hmem, hspec⟩ := hbad
    rw [List.all_cons, Bool.and_eq_true] at hwf
    cases ch with
    | lit s =>
      have hmem2 : UChunk.ph spec ∈ rest := by
        rcases List.mem_cons.mp hmem with he | he
        · exact absurd he (by simp)
        · exact he
      have hrx : chunksRegex (UChunk.lit s :: rest) = s ++ chunksRegex rest := by
        simp [chunksRegex, chunkRegex]
      rw [hrx]
      apply parse_lit_chain s _ ?_ (fun g => ih hwf.2 ⟨spec, hmem2, hspec⟩ g) f
      intro c hc he
      exact lit_wf_not_mem hwf.1 (d := '(') (by decide) (he ▸ hc)
    | ph spec0 =>
      have hrx : chunksRegex (UChunk.ph spec0 :: rest) =
          groupOf spec0 ++ chunksRegex rest := by
        simp [chunksRegex, chunkRegex]
      rw [hrx]
      cases f with
      | zero => rfl
      | succ f =>
        rw [parse_group_step spec0 _ f (spec_wf_not_mem hwf.1 (by decide))]
        by_cases hok : groupNameOk spec0 = true
        · rw [if_pos hok]
          have hmem2 : UChunk.ph spec ∈ rest := by
            rcases List.mem_cons.mp hmem with he | he
            · have : spec = spec0 := by
                injection he
              rw [this] at hspec
              rw [hspec] at hok
              exact absurd hok (by simp)
            · exact he
          rw [ih hwf.2 ⟨spec, hmem2, hspec⟩ f]
          rfl
        · rw [if_neg hok]

theorem groupNameOk_colon : ∀ {spec : CL}, ':' ∈ spec → groupNameOk spec = false := by
  intro spec h
  cases spec with
  | nil => simp at h
  | cons c rest =>
    rcases List.mem_cons.mp h with he | he
    · subst he
      rw [groupNameOk]
      rw [show ((':' : Char).isAlpha || decide ((':' : Char) = '_')) = false from by decide]
      rw [Bool.false_and]
    · rw [groupNameOk]
      cases hall : rest.all (fun d => d.isAlphanum || d = '_') with
      | false => rw [Bool.and_false]
      | true =>
        have := List.all_eq_true.mp hall ':' he
        exact absurd this (by decide)

theorem compile_chunks_bad (chunks : List UChunk) (hwf : chunks.all chunkWf = true)
    (hbad : ∃ spec, UChunk.ph spec ∈ chunks ∧ groupNameOk spec = false) :
    compileUltraPattern (chunksStr chunks) = none := by
  have h1 : ultraRewrite (chunksStr chunks) = chunksRegex chunks := by
    rw [ultraRewrite, chunksStr_count chunks hwf]
    exact chunks_rewrite chunks (phCount chunks + 1) hwf (Nat.le_refl _)
  rw [compileUltraPattern, h1, parseURegex, parse_chunks_bad chunks hwf hbad]

/-- C10: patterns containing a typed placeholder `{name:type}` are not
registrable through `add_dynamic_route` at all.  The rewrite loop of
`compile_ultra_fast_pattern` keeps the whole brace content as the capture
group name, producing `(?P<name:type>[^/]+)`, and the regex engine rejects
group names containing `:`; so for every well-formed pattern (alternation of
brace-free literal runs and `{spec}` placeholders with identifier/colon
specs) in which some placeholder's spec contains a colon, registration
returns false and the route table (indeed the whole state) is unchanged. -/
theorem C10_typed_placeholder_rejected :
    ∀ (chunks : List UChunk) (spec : CL) (mb hb pb : List Nat) (ttl : Nat) (st : UState),
      chunks.all chunkWf = true →
      UChunk.ph spec ∈ chunks →
      ':' ∈ spec →
      utf8LossyDecode pb = chunksStr chunks →
      addDynamicRoute (some mb) (some pb) (some hb) ttl st = (false, st) := by
  intro chunks spec mb hb pb ttl st hwf hmem hcolon hdec
  have hcompile : compileUltraPattern (chunksStr chunks) = none :=
    compile_chunks_bad chunks hwf ⟨spec, hmem, groupNameOk_colon hcolon⟩
  rw [addDynamicRoute]
  dsimp only
  rw [hdec, hcompile]

/-- Witness for C10 at the concrete pattern `/users/{id:int}`. -/
theorem C10_typed_placeholder_rejected_witness :
    addDynamicRoute (some (strBytes "GET")) (some (strBytes "/users/\x7bid:int\x7d"))
        (some (strBytes "get_user")) 0 emptyUState = (false, emptyUState) :=
  C10_typed_placeholder_rejected
    [UChunk.lit "/users/".data, UChunk.ph "id:int".data] "id:int".data
    (strBytes "GET") (strBytes "get_user") (strBytes "/users/\x7bid:int\x7d") 0 emptyUState
    (by decide) (by decide) (by decide) (by decide)

end Sufast
